import Mathlib

/-!
Shallow embedding of the file-collection pipeline of `gemini_cli.py`
(functions `format_file_content`, `is_binary_file`, `get_files_from_paths`
with its nested helpers `should_exclude` and `process_file`, and the
prompt-assembly and dry-run-summary fragments of `main`), together with
theorems settling the specification claims about it.

The file system is abstracted: one candidate file is modelled by the
observable outcomes of the system calls the program makes on it (its raw
bytes as returned by the binary probe, whether that probe raised, and the
outcome of the full UTF-8 text read).
-/

/-- Raw outcome of `open(file_path, 'r', encoding='utf-8').read()`:
either the decoded content, a `UnicodeDecodeError`, or any other I/O error. -/
inductive ReadOutcome where
  | ok (content : String)
  | decodeError
  | readError
  deriving DecidableEq

/-- One candidate regular file as the program can observe it: its path,
the raw bytes on disk (used by the 1024-byte binary probe), whether the
probe's `open`/`read` raised, and the outcome of the full text read. -/
structure FSFile where
  path : String
  bytes : List Nat
  probeError : Bool
  readOutcome : ReadOutcome
  deriving DecidableEq

/-- One explicit `-f` argument: the result of `os.path.isfile` on it and,
when it is a regular file, the file itself. -/
structure ExplicitArg where
  isfile : Bool
  file : FSFile
  deriving DecidableEq

/-- One `-d` argument: the result of `os.path.isdir` on it and the regular
files produced, in order, by `os.walk` over it. -/
structure DirArg where
  isdir : Bool
  walked : List FSFile
  deriving DecidableEq

/-- State of one collection run: the three variables of
`get_files_from_paths` mutated by `process_file`
(`formatted_contents`, `included_files`, `total_bytes`). -/
structure CollectState where
  formatted_contents : List String
  included_files : List String
  total_bytes : Nat
  deriving DecidableEq

/-- Embedding of `os.path.basename` for POSIX paths: the part of the path
after the last separator (the whole path when it has no separator). -/
def basename (p : String) : String :=
  String.mk ((p.toList.reverse.takeWhile (fun c => c != '/')).reverse)

/-- Embedding of Python `str.lower()` (ASCII range, which is all the
program compares): lower-case every character. -/
def strToLower (s : String) : String :=
  String.mk (s.toList.map Char.toLower)

/-- Extension part of `os.path.splitext` applied to a base name (no
separator in the argument): everything from the last dot on, except that
a run of dots at the very start of the name is not an extension separator
(`.bashrc` has extension `""`). Mirrors CPython `genericpath._splitext`. -/
def splitextExt (name : String) : String :=
  let cs := name.toList
  match cs.reverse.findIdx? (fun c => c = '.') with
  | none => ""
  | some ri =>
    let dotIdx := cs.length - 1 - ri
    if (cs.take dotIdx).any (fun c => c != '.') then
      String.mk (cs.drop dotIdx)
    else ""

/-- Embedding of `format_file_content` (gemini_cli.py line 32): the
f-string `File: {basename}\n"""\n{content}\n"""`. -/
def format_file_content (file_path content : String) : String :=
  s!"File: {basename file_path}\n\"\"\"\n{content}\n\"\"\""

/-- Embedding of `is_binary_file` (line 36): read the first 1024 bytes and
look for a NUL byte; any exception during the probe counts as binary. -/
def is_binary_file (f : FSFile) : Bool :=
  if f.probeError then true else (f.bytes.take 1024).contains 0

/-- Embedding of the nested `should_exclude` (line 56). Its
`exclude_exts` argument is the already lower-cased list built at
line 53 of `get_files_from_paths`. -/
def should_exclude (exclude_exts exclude_names : List String) (file_path : String) : Bool :=
  let file_name := basename file_path
  let file_ext := strToLower (splitextExt file_name)
  exclude_exts.contains file_ext || exclude_names.contains file_name

/-- Embedding of the guard `max_bytes and (total_bytes + content_size > max_bytes)`
(line 78), including Python truthiness: `None` and `0` both disable the check. -/
def budgetExceeds (max_bytes : Option Int) (total_bytes content_size : Nat) : Bool :=
  match max_bytes with
  | none => false
  | some m => m != 0 && decide ((total_bytes : Int) + (content_size : Int) > m)

/-- Embedding of the nested `process_file` (line 62) as a state
transformer: exclusion check, binary check, text read (decode and I/O
errors skip), budget check, then acceptance. -/
def process_file (max_bytes : Option Int) (exclude_exts exclude_names : List String)
    (st : CollectState) (f : FSFile) : CollectState :=
  if should_exclude exclude_exts exclude_names f.path then st
  else if is_binary_file f then st
  else
    match f.readOutcome with
    | .decodeError => st
    | .readError => st
    | .ok content =>
      let content_size := content.utf8ByteSize
      if budgetExceeds max_bytes st.total_bytes content_size then st
      else
        { formatted_contents := st.formatted_contents ++ [format_file_content f.path content]
          included_files := st.included_files ++ [f.path]
          total_bytes := st.total_bytes + content_size }

/-- Embedding of `get_files_from_paths` (line 45): lower-case the excluded
extensions, process the explicit file arguments in order (skipping
non-regular files), then every walked file of every directory argument
(skipping non-directories). -/
def get_files_from_paths (file_paths : List ExplicitArg) (dir_paths : List DirArg)
    (exclude_exts exclude_names : List String) (max_bytes : Option Int) : CollectState :=
  let exts := exclude_exts.map strToLower
  let st0 : CollectState := { formatted_contents := [], included_files := [], total_bytes := 0 }
  let st1 := file_paths.foldl
    (fun st a => if a.isfile then process_file max_bytes exts exclude_names st a.file else st) st0
  dir_paths.foldl
    (fun st d =>
      if d.isdir then d.walked.foldl (process_file max_bytes exts exclude_names) st else st) st1

/-- Candidate files of one run, in processing order: explicit regular
files first, then the walked files of each existing directory. -/
def allFiles (file_paths : List ExplicitArg) (dir_paths : List DirArg) : List FSFile :=
  (file_paths.filter (fun a => a.isfile)).map (fun a => a.file)
    ++ ((dir_paths.filter (fun d => d.isdir)).map (fun d => d.walked)).flatten

/-- Embedding of the prompt assembly of `main` (lines 123-136):
`prompt_parts = [question]`, append `"\n\n" + "\n\n".join(blocks)` when at
least one block exists, then join. -/
def build_final_prompt (question : String) (formatted_contents : List String) : String :=
  if formatted_contents.isEmpty then question
  else question ++ "\n\n" ++ String.intercalate "\n\n" formatted_contents

/-- Full pipeline from command arguments to the final prompt string. -/
def final_prompt (question : String) (file_paths : List ExplicitArg) (dir_paths : List DirArg)
    (exclude_exts exclude_names : List String) (max_bytes : Option Int) : String :=
  build_final_prompt question
    (get_files_from_paths file_paths dir_paths exclude_exts exclude_names max_bytes).formatted_contents

/-- Embedding of the dry-run byte total (line 143): re-read every included
file at summary time (`reread` maps a path to its decoded content then)
and sum the encoded sizes; `0` when nothing was included. -/
def dry_run_total (reread : String → String) (included_files : List String) : Nat :=
  if included_files.isEmpty then 0
  else (included_files.map (fun p => (reread p).utf8ByteSize)).sum

/-- Total encoded size of the contents of a list of included paths, given
the decoded content of each path. -/
def totalSize (contentAt : String → String) (paths : List String) : Nat :=
  (paths.map (fun p => (contentAt p).utf8ByteSize)).sum

/-- Extension of a base name as the specification's sentence defines it
(for comparison with the code's `splitextExt`): the substring from the
last dot inclusive, or empty if the name has no dot. -/
def specLastDotExt (name : String) : String :=
  match name.toList.reverse.findIdx? (fun c => c = '.') with
  | none => ""
  | some ri => String.mk (name.toList.drop (name.toList.length - 1 - ri))

/-- Inverse of the block format: drop the `File: <name>\n"""\n` prefix
(11 characters plus the name) and the `\n"""` suffix (4 characters),
recovering the embedded content. -/
def recoverContent (name_len : Nat) (block : String) : String :=
  String.mk ((block.toList.drop (11 + name_len)).take (block.toList.length - (15 + name_len)))

/-! Helper lemmas shared by the claim theorems. -/

/-- Dichotomy for one `process_file` step: either the state is unchanged
(any of the skip paths), or the file passed every check and the state is
extended by exactly one block, one path and the content's encoded size. -/
theorem process_file_cases (mb : Option Int) (exts names : List String)
    (st : CollectState) (f : FSFile) :
    process_file mb exts names st f = st ∨
    ∃ content, f.readOutcome = ReadOutcome.ok content ∧
      should_exclude exts names f.path = false ∧
      is_binary_file f = false ∧
      budgetExceeds mb st.total_bytes content.utf8ByteSize = false ∧
      process_file mb exts names st f =
        { formatted_contents := st.formatted_contents ++ [format_file_content f.path content]
          included_files := st.included_files ++ [f.path]
          total_bytes := st.total_bytes + content.utf8ByteSize } := by
  unfold process_file
  by_cases h1 : should_exclude exts names f.path
  · left; simp [h1]
  · by_cases h2 : is_binary_file f
    · left; simp [h1, h2]
    · cases hr : f.readOutcome with
      | decodeError => left; simp [h1, h2]
      | readError => left; simp [h1, h2]
      | ok content =>
        by_cases h3 : budgetExceeds mb st.total_bytes content.utf8ByteSize
        · left; simp [h1, h2, h3]
        · right
          exact ⟨content, rfl, by simp [h1], by simp [h2], by simp [h3], by simp [h1, h2, h3]⟩

/-- Reduction of `process_file` when every check passes. -/
theorem process_file_accepts (mb : Option Int) (exts names : List String)
    (st : CollectState) (f : FSFile) (content : String)
    (hex : should_exclude exts names f.path = false)
    (hbin : is_binary_file f = false)
    (hread : f.readOutcome = ReadOutcome.ok content)
    (hbudget : budgetExceeds mb st.total_bytes content.utf8ByteSize = false) :
    process_file mb exts names st f =
      { formatted_contents := st.formatted_contents ++ [format_file_content f.path content]
        included_files := st.included_files ++ [f.path]
        total_bytes := st.total_bytes + content.utf8ByteSize } := by
  unfold process_file
  simp [hex, hbin, hread, hbudget]

/-- Reduction of `process_file` when the exclusion check fires. -/
theorem process_file_excluded (mb : Option Int) (exts names : List String)
    (st : CollectState) (f : FSFile)
    (hex : should_exclude exts names f.path = true) :
    process_file mb exts names st f = st := by
  unfold process_file
  simp [hex]

/-- Invariance of a predicate along a fold of `process_file` steps, with
membership of each processed file available to the step hypothesis. -/
theorem foldl_process_invariant (mb : Option Int) (exts names : List String)
    (P : CollectState → Prop) (fs : List FSFile) (st : CollectState)
    (h0 : P st)
    (hstep : ∀ s f, f ∈ fs → P s → P (process_file mb exts names s f)) :
    P (fs.foldl (process_file mb exts names) st) := by
  induction fs generalizing st with
  | nil => exact h0
  | cons f t ih =>
    exact ih (process_file mb exts names st f) (hstep st f (List.mem_cons_self f t) h0)
      (fun s g hg hs => hstep s g (List.mem_cons_of_mem f hg) hs)

/-- The explicit-files loop of `get_files_from_paths` equals a plain fold
over the regular files among the arguments. -/
theorem foldl_explicit_eq (g : CollectState → FSFile → CollectState)
    (fa : List ExplicitArg) (st : CollectState) :
    fa.foldl (fun s a => if a.isfile then g s a.file else s) st =
      ((fa.filter (fun a => a.isfile)).map (fun a => a.file)).foldl g st := by
  induction fa generalizing st with
  | nil => rfl
  | cons a t ih =>
    by_cases h : a.isfile
    · simp [List.filter_cons, h, ih]
    · simp [List.filter_cons, h, ih]

/-- The directory loop of `get_files_from_paths` equals a plain fold over
the concatenation of the walked files of the existing directories. -/
theorem foldl_dirs_eq (g : CollectState → FSFile → CollectState)
    (da : List DirArg) (st : CollectState) :
    da.foldl (fun s d => if d.isdir then d.walked.foldl g s else s) st =
      (((da.filter (fun d => d.isdir)).map (fun d => d.walked)).flatten).foldl g st := by
  induction da generalizing st with
  | nil => rfl
  | cons d t ih =>
    by_cases h : d.isdir
    · simp [List.filter_cons, h, ih, List.foldl_append]
    · simp [List.filter_cons, h, ih]

/-- A whole collection run is the fold of `process_file` over the
candidate files in processing order, from the empty state. -/
theorem get_files_from_paths_eq_foldl (fa : List ExplicitArg) (da : List DirArg)
    (exts names : List String) (mb : Option Int) :
    get_files_from_paths fa da exts names mb =
      (allFiles fa da).foldl (process_file mb (exts.map strToLower) names)
        { formatted_contents := [], included_files := [], total_bytes := 0 } := by
  simp only [get_files_from_paths, allFiles]
  rw [foldl_explicit_eq, foldl_dirs_eq, List.foldl_append]

/-- The dry-run total is the plain sum of re-read encoded sizes (the
empty-list special case of line 143 agrees with the empty sum). -/
theorem dry_run_total_eq_sum (reread : String → String) (l : List String) :
    dry_run_total reread l = (l.map (fun p => (reread p).utf8ByteSize)).sum := by
  cases l with
  | nil => rfl
  | cons a t => rfl

/-- Extraction of the middle section of a three-part concatenation by
index arithmetic. -/
theorem drop_take_middle (pre mid suf : List Char) :
    ((pre ++ mid ++ suf).drop pre.length).take
        ((pre ++ mid ++ suf).length - (pre.length + suf.length)) = mid := by
  have h1 : (pre ++ mid ++ suf).drop pre.length = mid ++ suf := by
    rw [List.append_assoc, List.drop_left]
  have h2 : (pre ++ mid ++ suf).length - (pre.length + suf.length) = mid.length := by
    simp [List.length_append]
    omega
  rw [h1, h2, List.take_left]

/-! Claim theorems. -/

/-- C5: a candidate file whose first 1024 bytes contain a NUL byte, or
whose binary probe could not open or read the file, is classified as
binary by `is_binary_file`, and processing it leaves the collection state
unchanged (it is skipped, never propagating an error), whatever the
outcome of the full text read would have been. -/
theorem C5_nul_prefix_binary_skip (f : FSFile)
    (h : (0 : Nat) ∈ f.bytes.take 1024 ∨ f.probeError = true) :
    is_binary_file f = true ∧
    ∀ (mb : Option Int) (exts names : List String) (st : CollectState),
      process_file mb exts names st f = st := by
  have hbin : is_binary_file f = true := by
    unfold is_binary_file
    rcases h with h | h
    · by_cases hp : f.probeError
      · simp [hp]
      · simp only [hp, if_false, Bool.false_eq_true]
        exact List.elem_eq_true_of_mem h
    · simp [h]
  refine ⟨hbin, fun mb exts names st => ?_⟩
  unfold process_file
  by_cases hex : should_exclude exts names f.path
  · simp [hex]
  · simp [hex, hbin]

/-- Witness for C5 at a one-byte NUL file. -/
theorem C5_nul_prefix_binary_skip_witness :
    is_binary_file
        { path := "b.bin", bytes := [0], probeError := false,
          readOutcome := ReadOutcome.ok "x" } = true ∧
    process_file none [] [] { formatted_contents := [], included_files := [], total_bytes := 0 }
        { path := "b.bin", bytes := [0], probeError := false,
          readOutcome := ReadOutcome.ok "x" } =
      { formatted_contents := [], included_files := [], total_bytes := 0 } :=
  ⟨(C5_nul_prefix_binary_skip _ (Or.inl (by decide))).1,
   (C5_nul_prefix_binary_skip _ (Or.inl (by decide))).2 none [] [] _⟩

/-- C6: the formatted block is exactly `File: ` + base name + newline,
triple quote, newline + content + newline, triple quote, and dropping the
11 + name-length leading characters and the 4 trailing characters recovers
the content unchanged (embedded triple quotes are not escaped). -/
theorem C6_block_round_trip (p c : String) :
    format_file_content p c =
      "File: " ++ basename p ++ "\n\"\"\"\n" ++ c ++ "\n\"\"\"" ∧
    recoverContent (basename p).length (format_file_content p c) = c := by
  refine ⟨rfl, ?_⟩
  have hblock : (format_file_content p c).toList =
      ("File: ".toList ++ (basename p).toList ++ "\n\"\"\"\n".toList) ++ c.toList
        ++ "\n\"\"\"".toList := rfl
  have hlen : ("File: ".toList ++ (basename p).toList ++ "\n\"\"\"\n".toList).length
      = 11 + (basename p).length := by
    have h6 : "File: ".toList.length = 6 := rfl
    have h5 : "\n\"\"\"\n".toList.length = 5 := rfl
    have hb : (basename p).toList.length = (basename p).length := rfl
    simp only [List.length_append, h6, h5, hb]
    omega
  have hps : ("File: ".toList ++ (basename p).toList ++ "\n\"\"\"\n".toList).length
        + "\n\"\"\"".toList.length
      = 15 + (basename p).length := by
    have h4 : "\n\"\"\"".toList.length = 4 := rfl
    rw [hlen, h4]
    omega
  have key := drop_take_middle
    ("File: ".toList ++ (basename p).toList ++ "\n\"\"\"\n".toList) c.toList "\n\"\"\"".toList
  show String.mk (((format_file_content p c).toList.drop (11 + (basename p).length)).take
      ((format_file_content p c).toList.length - (15 + (basename p).length))) = c
  rw [hblock, ← hlen, ← hps, key]
  rfl

/-- C7: the final payload is the question followed by two newlines and the
blocks joined by two newlines when at least one file was included, and
exactly the question otherwise; in particular the question `Summarize`
with the single included file `a.txt` containing `hello` yields the stated
payload. -/
theorem C7_prompt_assembly :
    (∀ (q : String) (fs : List String), fs ≠ [] →
      build_final_prompt q fs = q ++ "\n\n" ++ String.intercalate "\n\n" fs) ∧
    (∀ q : String, build_final_prompt q [] = q) ∧
    final_prompt "Summarize"
        [{ isfile := true,
           file := { path := "a.txt", bytes := [104, 101, 108, 108, 111], probeError := false,
                     readOutcome := ReadOutcome.ok "hello" } }] [] [] [] none =
      "Summarize\n\nFile: a.txt\n\"\"\"\nhello\n\"\"\"" := by
  refine ⟨?_, fun q => rfl, ?_⟩
  · intro q fs hfs
    cases fs with
    | nil => exact absurd rfl hfs
    | cons a t => rfl
  · rfl

/-- Witness for the conditional part of C7 at a one-block list. -/
theorem C7_prompt_assembly_witness :
    build_final_prompt "Summarize" ["x"] =
      "Summarize" ++ "\n\n" ++ String.intercalate "\n\n" ["x"] :=
  C7_prompt_assembly.1 "Summarize" ["x"] (by decide)

/-- Counterexample to C10 as stated: a negative configured budget
(argparse accepts `-mb -5`) keeps the guard armed (`-5` is truthy) and
`0 + 0 > -5` holds, so a zero-byte file is budget-rejected even at the
reachable initial state whose running total is `0`: the guard fires, the
processing step is a no-op, and a run over just that file includes
nothing. -/
theorem C10_negative_budget_counterexample :
    budgetExceeds (some (-5)) 0 0 = true ∧
    "".utf8ByteSize = 0 ∧
    process_file (some (-5)) [] []
        { formatted_contents := [], included_files := [], total_bytes := 0 }
        { path := "empty.txt", bytes := [], probeError := false,
          readOutcome := ReadOutcome.ok "" } =
      { formatted_contents := [], included_files := [], total_bytes := 0 } ∧
    (get_files_from_paths
        [{ isfile := true,
           file := { path := "empty.txt", bytes := [], probeError := false,
                     readOutcome := ReadOutcome.ok "" } }] [] [] []
        (some (-5))).included_files = [] :=
  ⟨rfl, rfl, rfl, rfl⟩

/-- C10 (amended): the budget check rejects only strict exceedance, for a
nonnegative configured budget. A file whose encoded size brings the
running total exactly to the configured maximum is included (for any
configured budget); with `0 ≤ m` a zero-byte file is never rejected by the
budget in any reachable state — when `m = 0` the guard is disabled, and
otherwise every state reachable from the empty one keeps the running total
at most `m` (last conjunct), where the total being at most `m` (in
particular equal to it) lets the zero-byte file through. A negative
configured budget instead rejects every file, zero-byte ones included. -/
theorem C10_strict_exceedance_amended (m : Int) (exts names : List String)
    (st : CollectState) (f : FSFile) (c : String)
    (hex : should_exclude exts names f.path = false)
    (hbin : is_binary_file f = false)
    (hread : f.readOutcome = ReadOutcome.ok c) :
    ((st.total_bytes : Int) + (c.utf8ByteSize : Int) = m →
      process_file (some m) exts names st f =
        { formatted_contents := st.formatted_contents ++ [format_file_content f.path c]
          included_files := st.included_files ++ [f.path]
          total_bytes := st.total_bytes + c.utf8ByteSize }) ∧
    (c.utf8ByteSize = 0 → (m = 0 ∨ (st.total_bytes : Int) ≤ m) →
      process_file (some m) exts names st f =
        { formatted_contents := st.formatted_contents ++ [format_file_content f.path c]
          included_files := st.included_files ++ [f.path]
          total_bytes := st.total_bytes + c.utf8ByteSize }) ∧
    (0 ≤ m → ∀ fs : List FSFile,
      m = 0 ∨
        (((fs.foldl (process_file (some m) exts names)
            { formatted_contents := [], included_files := [], total_bytes := 0 }).total_bytes :
          Int) ≤ m)) := by
  refine ⟨?_, ?_, ?_⟩
  · intro heq
    apply process_file_accepts (some m) exts names st f c hex hbin hread
    have hng : ¬ ((st.total_bytes : Int) + (c.utf8ByteSize : Int) > m) := by omega
    simp [budgetExceeds, hng]
  · intro hz hcase
    apply process_file_accepts (some m) exts names st f c hex hbin hread
    have hz' : (c.utf8ByteSize : Int) = 0 := by exact_mod_cast hz
    rcases hcase with hm0 | hle
    · subst hm0
      simp [budgetExceeds]
    · have hng : ¬ ((st.total_bytes : Int) + (c.utf8ByteSize : Int) > m) := by omega
      simp [budgetExceeds, hng]
  · intro hm fs
    by_cases hm0 : m = 0
    · exact Or.inl hm0
    · right
      exact foldl_process_invariant (some m) exts names
        (fun s => (s.total_bytes : Int) ≤ m) fs
        { formatted_contents := [], included_files := [], total_bytes := 0 }
        (by simpa using hm)
        (fun s g hg hs => by
          rcases process_file_cases (some m) exts names s g with
            hcase | ⟨c', _, _, _, hb, heq⟩
          · rw [hcase]; exact hs
          · rw [heq]
            simp only []
            have hb' : (s.total_bytes : Int) + (c'.utf8ByteSize : Int) ≤ m := by
              by_cases hgt : (s.total_bytes : Int) + (c'.utf8ByteSize : Int) ≤ m
              · exact hgt
              · exfalso
                have hgt' : (s.total_bytes : Int) + (c'.utf8ByteSize : Int) > m := by omega
                have hbt : budgetExceeds (some m) s.total_bytes c'.utf8ByteSize = true := by
                  simp [budgetExceeds, hgt']
                  omega
                rw [hbt] at hb
                cases hb
            push_cast
            omega)

/-- Witness for the amended C10: with budget 5, the exact-fit 5-byte file
`hello` is included from the empty state, and a zero-byte file is included
from a state whose running total already equals the budget. -/
theorem C10_strict_exceedance_amended_witness :
    process_file (some 5) [] [] { formatted_contents := [], included_files := [], total_bytes := 0 }
        { path := "a.txt", bytes := [104], probeError := false,
          readOutcome := ReadOutcome.ok "hello" } =
      { formatted_contents := ["File: a.txt\n\"\"\"\nhello\n\"\"\""]
        included_files := ["a.txt"]
        total_bytes := 5 } ∧
    process_file (some 5) [] [] { formatted_contents := [], included_files := [], total_bytes := 5 }
        { path := "empty.txt", bytes := [], probeError := false,
          readOutcome := ReadOutcome.ok "" } =
      { formatted_contents := ["File: empty.txt\n\"\"\"\n\n\"\"\""]
        included_files := ["empty.txt"]
        total_bytes := 5 } :=
  ⟨((C10_strict_exceedance_amended 5 [] []
      { formatted_contents := [], included_files := [], total_bytes := 0 }
      { path := "a.txt", bytes := [104], probeError := false,
        readOutcome := ReadOutcome.ok "hello" } "hello" rfl rfl rfl).1 (by decide)).trans rfl,
   (((C10_strict_exceedance_amended 5 [] []
      { formatted_contents := [], included_files := [], total_bytes := 5 }
      { path := "empty.txt", bytes := [], probeError := false,
        readOutcome := ReadOutcome.ok "" } "" rfl rfl rfl).2.1 rfl
      (Or.inr (by decide))).trans rfl)⟩

/-- Counterexample to C1 as stated: with the configured budget
`max_bytes = 0`, Python truthiness (`max_bytes and ...`) disables the
budget check entirely, so a 5-byte file is included and the total encoded
size of included content (5) exceeds the configured maximum (0). -/
theorem C1_zero_budget_counterexample :
    (get_files_from_paths
        [{ isfile := true,
           file := { path := "a.txt", bytes := [104, 101, 108, 108, 111], probeError := false,
                     readOutcome := ReadOutcome.ok "hello" } }] [] [] [] (some 0)).included_files =
      ["a.txt"] ∧
    (get_files_from_paths
        [{ isfile := true,
           file := { path := "a.txt", bytes := [104, 101, 108, 108, 111], probeError := false,
                     readOutcome := ReadOutcome.ok "hello" } }] [] [] [] (some 0)).total_bytes = 5 ∧
    ¬ ((5 : Int) ≤ 0) :=
  ⟨rfl, rfl, by decide⟩

/-- C1 (amended to a positive configured budget): for every collection run
with `max_bytes = some m`, `0 < m`, the total encoded size of all included
file content never exceeds `m`, and any candidate whose encoded size added
to the running total would exceed `m` is skipped entirely, leaving the
state (result and running total) unchanged. -/
theorem C1_positive_budget (m : Int) (hm : 0 < m)
    (fa : List ExplicitArg) (da : List DirArg) (exts names : List String)
    (contentAt : String → String)
    (hc : ∀ f ∈ allFiles fa da, ∀ c, f.readOutcome = ReadOutcome.ok c → contentAt f.path = c) :
    (totalSize contentAt (get_files_from_paths fa da exts names (some m)).included_files : Int)
        ≤ m ∧
    ∀ (st : CollectState) (f : FSFile) (c : String), f.readOutcome = ReadOutcome.ok c →
      (st.total_bytes : Int) + (c.utf8ByteSize : Int) > m →
      process_file (some m) (exts.map strToLower) names st f = st := by
  constructor
  · rw [get_files_from_paths_eq_foldl]
    have key := foldl_process_invariant (some m) (exts.map strToLower) names
      (fun st => (st.total_bytes : Int) ≤ m ∧
        totalSize contentAt st.included_files = st.total_bytes)
      (allFiles fa da)
      { formatted_contents := [], included_files := [], total_bytes := 0 }
      ⟨by simpa using le_of_lt hm, by simp [totalSize]⟩
      (fun s f hf hP => by
        rcases process_file_cases (some m) (exts.map strToLower) names s f with
          hcase | ⟨c, hr, _, _, hb, heq⟩
        · rw [hcase]; exact hP
        · rw [heq]
          obtain ⟨h1, h2⟩ := hP
          have hb' : (m = 0) ∨ (s.total_bytes : Int) + (c.utf8ByteSize : Int) ≤ m := by
            by_cases hgt : (s.total_bytes : Int) + (c.utf8ByteSize : Int) ≤ m
            · exact Or.inr hgt
            · left
              by_contra hm0
              simp [budgetExceeds, hm0, not_le.mp hgt] at hb
          rcases hb' with hb' | hb'
          · omega
          · constructor
            · simp only []
              push_cast
              omega
            · simp only [totalSize, List.map_append, List.sum_append, List.map_cons,
                List.map_nil, List.sum_cons, List.sum_nil]
              rw [hc f hf c hr]
              simp only [totalSize] at h2
              omega)
    rw [key.2]
    exact key.1
  · intro st f c hread hgt
    rcases process_file_cases (some m) (exts.map strToLower) names st f with
      hcase | ⟨c', hr', _, _, hb, _⟩
    · exact hcase
    · rw [hread] at hr'
      injection hr' with hcc
      subst hcc
      have : budgetExceeds (some m) st.total_bytes c.utf8ByteSize = true := by
        simp [budgetExceeds, hgt]
        omega
      rw [this] at hb
      cases hb

/-- Witness for the amended C1 at a 5-byte file under budget 5. -/
theorem C1_positive_budget_witness :
    (totalSize (fun _ => "hello")
        (get_files_from_paths
          [{ isfile := true,
             file := { path := "a.txt", bytes := [104], probeError := false,
                       readOutcome := ReadOutcome.ok "hello" } }] [] [] []
          (some 5)).included_files : Int) ≤ 5 :=
  (C1_positive_budget 5 (by decide) _ _ [] [] (fun _ => "hello") (by
    intro f hf c hc
    simp only [allFiles, List.filter, List.map, List.flatten, List.append_nil,
      List.mem_singleton] at hf
    subst hf
    cases hc
    rfl)).1

/-- Bound on how often a path can occur in the included list after a fold
of `process_file` steps: at most once per candidate with that path. -/
theorem foldl_count_le (mb : Option Int) (exts names : List String)
    (fs : List FSFile) (st : CollectState) (p : String) :
    ((fs.foldl (process_file mb exts names) st).included_files.count p) ≤
      st.included_files.count p + fs.countP (fun f => f.path == p) := by
  induction fs generalizing st with
  | nil => simp
  | cons f t ih =>
    simp only [List.foldl_cons, List.countP_cons]
    rcases process_file_cases mb exts names st f with hcase | ⟨c, _, _, _, _, heq⟩
    · rw [hcase]
      have h := ih st
      by_cases hp : f.path = p
      · simp only [hp, beq_self_eq_true, if_pos]
        omega
      · simp only [beq_eq_false_iff_ne, ne_eq, hp, not_false_eq_true, if_neg, beq_iff_eq]
        omega
    · rw [heq]
      have h := ih { formatted_contents := st.formatted_contents ++ [format_file_content f.path c]
                     included_files := st.included_files ++ [f.path]
                     total_bytes := st.total_bytes + c.utf8ByteSize }
      simp only [List.count_append] at h
      by_cases hp : f.path = p
      · subst hp
        simp only [List.count_singleton, beq_self_eq_true, if_pos] at h ⊢
        omega
      · have : ([f.path].count p) = 0 := by
          simp [List.count_singleton]
          exact fun hpp => absurd hpp.symm (fun hq => hp hq.symm)
        rw [this] at h
        simp only [beq_iff_eq, hp, if_neg, if_false]
        omega

/-- Bound on the length of the included list after a fold of
`process_file` steps: at most one entry per candidate. -/
theorem foldl_length_le (mb : Option Int) (exts names : List String)
    (fs : List FSFile) (st : CollectState) :
    (fs.foldl (process_file mb exts names) st).included_files.length ≤
      st.included_files.length + fs.length := by
  induction fs generalizing st with
  | nil => simp
  | cons f t ih =>
    simp only [List.foldl_cons, List.length_cons]
    rcases process_file_cases mb exts names st f with hcase | ⟨c, _, _, _, _, heq⟩
    · rw [hcase]
      have h := ih st
      omega
    · rw [heq]
      have h := ih { formatted_contents := st.formatted_contents ++ [format_file_content f.path c]
                     included_files := st.included_files ++ [f.path]
                     total_bytes := st.total_bytes + c.utf8ByteSize }
      simp only [List.length_append, List.length_cons, List.length_nil] at h
      omega

/-- Counterexample to C2 as stated: the collector performs no
deduplication, so the same path passed twice as an explicit file argument
is processed twice and occurs twice in the included-files list. -/
theorem C2_duplicate_counterexample :
    (get_files_from_paths
        [{ isfile := true,
           file := { path := "a.txt", bytes := [104], probeError := false,
                     readOutcome := ReadOutcome.ok "h" } },
         { isfile := true,
           file := { path := "a.txt", bytes := [104], probeError := false,
                     readOutcome := ReadOutcome.ok "h" } }] [] [] [] none).included_files =
      ["a.txt", "a.txt"] ∧
    ¬ ((get_files_from_paths
        [{ isfile := true,
           file := { path := "a.txt", bytes := [104], probeError := false,
                     readOutcome := ReadOutcome.ok "h" } },
         { isfile := true,
           file := { path := "a.txt", bytes := [104], probeError := false,
                     readOutcome := ReadOutcome.ok "h" } }] [] [] [] none).included_files.count
        "a.txt" ≤ 1) :=
  ⟨rfl, by decide⟩

/-- C2 (amended): each candidate occurrence is processed exactly once,
but occurrences are not deduplicated, so a path reachable several times
(duplicate explicit arguments, or an explicit path also under a walked
root) can occur several times in the result. The number of occurrences of
any path in the included list is at most its number of occurrences among
the candidates, and the included list gains at most one entry per
candidate. -/
theorem C2_once_per_occurrence (fa : List ExplicitArg) (da : List DirArg)
    (exts names : List String) (mb : Option Int) (p : String) :
    (get_files_from_paths fa da exts names mb).included_files.count p ≤
      (allFiles fa da).countP (fun f => f.path == p) ∧
    (get_files_from_paths fa da exts names mb).included_files.length ≤
      (allFiles fa da).length := by
  rw [get_files_from_paths_eq_foldl]
  constructor
  · have h := foldl_count_le mb (exts.map strToLower) names (allFiles fa da)
      { formatted_contents := [], included_files := [], total_bytes := 0 } p
    simpa using h
  · have h := foldl_length_le mb (exts.map strToLower) names (allFiles fa da)
      { formatted_contents := [], included_files := [], total_bytes := 0 }
    simpa using h

/-- Helper: a path at which `should_exclude` fires (for the lower-cased
extension list actually used by the run) never enters the included list. -/
theorem excluded_path_not_included (fa : List ExplicitArg) (da : List DirArg)
    (exts names : List String) (mb : Option Int) (p : String)
    (hex : should_exclude (exts.map strToLower) names p = true) :
    p ∉ (get_files_from_paths fa da exts names mb).included_files := by
  rw [get_files_from_paths_eq_foldl]
  exact foldl_process_invariant mb (exts.map strToLower) names
    (fun st => p ∉ st.included_files) (allFiles fa da)
    { formatted_contents := [], included_files := [], total_bytes := 0 }
    (by simp)
    (fun s f hf hp => by
      rcases process_file_cases mb (exts.map strToLower) names s f with
        hcase | ⟨c, _, hexf, _, _, heq⟩
      · rw [hcase]; exact hp
      · rw [heq]
        intro hmem
        rcases List.mem_append.mp hmem with h | h
        · exact hp h
        · have hpf : p = f.path := by simpa using h
          rw [← hpf] at hexf
          rw [hex] at hexf
          cases hexf)

/-- Counterexample to C3 as stated: excluded-extension entries are only
lower-cased, never normalized to gain the leading dot, so the entry `png`
(without dot) does not exclude `a.png`, whose extension is `.png`. -/
theorem C3_no_dot_normalization_counterexample :
    splitextExt (basename "a.png") = ".png" ∧
    (get_files_from_paths
        [{ isfile := true,
           file := { path := "a.png", bytes := [120], probeError := false,
                     readOutcome := ReadOutcome.ok "x" } }] [] ["png"] [] none).included_files =
      ["a.png"] :=
  ⟨rfl, rfl⟩

/-- C3 (amended): excluded-extension matching is case-insensitive (the
entries and the file's extension are both lower-cased before comparison),
but entries are not normalized to include the leading separator: an entry
excludes exactly the files whose lower-cased `splitext` extension equals
the lower-cased entry, so the entry itself must carry the leading dot. -/
theorem C3_case_insensitive_match (fa : List ExplicitArg) (da : List DirArg)
    (exts names : List String) (mb : Option Int) (e p : String)
    (he : e ∈ exts) (hp : strToLower (splitextExt (basename p)) = strToLower e) :
    p ∉ (get_files_from_paths fa da exts names mb).included_files := by
  apply excluded_path_not_included
  have hmem : strToLower (splitextExt (basename p)) ∈ exts.map strToLower := by
    rw [hp]
    exact List.mem_map_of_mem strToLower he
  have hcont : (exts.map strToLower).contains (strToLower (splitextExt (basename p))) = true :=
    List.elem_eq_true_of_mem hmem
  simp only [should_exclude]
  rw [hcont, Bool.true_or]

/-- Witness for the amended C3: the entry `.PNG` excludes `A.Png`. -/
theorem C3_case_insensitive_match_witness :
    "A.Png" ∉ (get_files_from_paths
        [{ isfile := true,
           file := { path := "A.Png", bytes := [120], probeError := false,
                     readOutcome := ReadOutcome.ok "x" } }] [] [".PNG"] [] none).included_files :=
  C3_case_insensitive_match _ _ _ _ _ ".PNG" "A.Png" (by decide) rfl

/-- Counterexample to C4 as stated: for the dotfile `.png` the claim's
extension (substring from the last dot) is `.png` and is in the excluded
set, yet `os.path.splitext` treats the leading dot as part of the name
(extension `""`), so the file is included. -/
theorem C4_dotfile_counterexample :
    strToLower (specLastDotExt (basename ".png")) = ".png" ∧
    splitextExt (basename ".png") = "" ∧
    (get_files_from_paths
        [{ isfile := true,
           file := { path := ".png", bytes := [120], probeError := false,
                     readOutcome := ReadOutcome.ok "x" } }] [] [".png"] [] none).included_files =
      [".png"] :=
  ⟨rfl, rfl, rfl⟩

/-- C4 (amended): for every candidate file whose lower-cased `splitext`
extension (everything from the last dot of the base name, empty when the
base name has no dot or only leading dots before it) is in the lower-cased
excluded-extension set, or whose base name exactly matches an excluded
name, collection produces zero occurrence of that path in the result, and
processing any candidate with that path leaves the state (including the
running byte total) unchanged, regardless of binary or text status. -/
theorem C4_exclusion_filters (fa : List ExplicitArg) (da : List DirArg)
    (exts names : List String) (mb : Option Int) (p : String)
    (h : strToLower (splitextExt (basename p)) ∈ exts.map strToLower ∨ basename p ∈ names) :
    p ∉ (get_files_from_paths fa da exts names mb).included_files ∧
    ∀ (st : CollectState) (f : FSFile), f.path = p →
      process_file mb (exts.map strToLower) names st f = st := by
  have hex : should_exclude (exts.map strToLower) names p = true := by
    simp only [should_exclude]
    rcases h with h | h
    · have hcont : (exts.map strToLower).contains (strToLower (splitextExt (basename p))) = true :=
        List.elem_eq_true_of_mem h
      rw [hcont, Bool.true_or]
    · have hcont : names.contains (basename p) = true :=
        List.elem_eq_true_of_mem h
      rw [hcont, Bool.or_true]
  refine ⟨excluded_path_not_included fa da exts names mb p hex, fun st f hf => ?_⟩
  apply process_file_excluded
  rw [hf]
  exact hex

/-- Witness for the amended C4: `secret.txt` in the excluded-name set is
absent from the result and its processing is a no-op. -/
theorem C4_exclusion_filters_witness :
    "secret.txt" ∉ (get_files_from_paths
        [{ isfile := true,
           file := { path := "secret.txt", bytes := [120], probeError := false,
                     readOutcome := ReadOutcome.ok "x" } }] [] [] ["secret.txt"]
        none).included_files ∧
    process_file none [] ["secret.txt"]
        { formatted_contents := [], included_files := [], total_bytes := 0 }
        { path := "secret.txt", bytes := [120], probeError := false,
          readOutcome := ReadOutcome.ok "x" } =
      { formatted_contents := [], included_files := [], total_bytes := 0 } :=
  ⟨(C4_exclusion_filters
      [{ isfile := true,
         file := { path := "secret.txt", bytes := [120], probeError := false,
                   readOutcome := ReadOutcome.ok "x" } }] [] [] ["secret.txt"] none
      "secret.txt" (Or.inr (by decide))).1,
   (C4_exclusion_filters
      [{ isfile := true,
         file := { path := "secret.txt", bytes := [120], probeError := false,
                   readOutcome := ReadOutcome.ok "x" } }] [] [] ["secret.txt"] none
      "secret.txt" (Or.inr (by decide))).2
     _ _ rfl⟩

/-- C8: under the assumption that every included file's content re-reads
and decodes identically at summary time (`reread` agrees with the content
obtained during collection), the dry-run summary's independently
recomputed total equals the running byte total accumulated during
collection. -/
theorem C8_dry_run_total_matches (fa : List ExplicitArg) (da : List DirArg)
    (exts names : List String) (mb : Option Int) (reread : String → String)
    (h : ∀ f ∈ allFiles fa da, ∀ c, f.readOutcome = ReadOutcome.ok c → reread f.path = c) :
    dry_run_total reread (get_files_from_paths fa da exts names mb).included_files =
      (get_files_from_paths fa da exts names mb).total_bytes := by
  rw [get_files_from_paths_eq_foldl, dry_run_total_eq_sum]
  exact foldl_process_invariant mb (exts.map strToLower) names
    (fun st => (st.included_files.map (fun p => (reread p).utf8ByteSize)).sum = st.total_bytes)
    (allFiles fa da)
    { formatted_contents := [], included_files := [], total_bytes := 0 }
    (by simp)
    (fun s f hf hs => by
      rcases process_file_cases mb (exts.map strToLower) names s f with
        hcase | ⟨c, hr, _, _, _, heq⟩
      · rw [hcase]; exact hs
      · rw [heq]
        simp only [List.map_append, List.sum_append, List.map_cons, List.map_nil,
          List.sum_cons, List.sum_nil]
        rw [h f hf c hr, hs]
        omega)

/-- Witness for C8 at a single included file re-read unchanged. -/
theorem C8_dry_run_total_matches_witness :
    dry_run_total (fun _ => "hello")
        (get_files_from_paths
          [{ isfile := true,
             file := { path := "a.txt", bytes := [104], probeError := false,
                       readOutcome := ReadOutcome.ok "hello" } }] [] [] []
          none).included_files =
      (get_files_from_paths
          [{ isfile := true,
             file := { path := "a.txt", bytes := [104], probeError := false,
                       readOutcome := ReadOutcome.ok "hello" } }] [] [] []
          none).total_bytes :=
  C8_dry_run_total_matches _ _ [] [] none (fun _ => "hello") (by
    intro f hf c hc
    simp only [allFiles, List.filter, List.map, List.flatten, List.append_nil,
      List.mem_singleton] at hf
    subst hf
    cases hc
    rfl)

/-- C9: the block sequence and the included-path sequence are extended
together in processing order: at the end of any run (and, by the last
conjunct, from any mid-run state onward) the two sequences have equal
length and the i-th block is exactly the block-format of the i-th included
path's decoded content. -/
theorem C9_blocks_track_paths (fa : List ExplicitArg) (da : List DirArg)
    (exts names : List String) (mb : Option Int) (contentAt : String → String)
    (h : ∀ f ∈ allFiles fa da, ∀ c, f.readOutcome = ReadOutcome.ok c → contentAt f.path = c) :
    (get_files_from_paths fa da exts names mb).formatted_contents =
      (get_files_from_paths fa da exts names mb).included_files.map
        (fun p => format_file_content p (contentAt p)) ∧
    (get_files_from_paths fa da exts names mb).formatted_contents.length =
      (get_files_from_paths fa da exts names mb).included_files.length ∧
    ∀ (fs : List FSFile) (st : CollectState),
      (∀ f ∈ fs, ∀ c, f.readOutcome = ReadOutcome.ok c → contentAt f.path = c) →
      st.formatted_contents =
        st.included_files.map (fun p => format_file_content p (contentAt p)) →
      (fs.foldl (process_file mb (exts.map strToLower) names) st).formatted_contents =
        (fs.foldl (process_file mb (exts.map strToLower) names) st).included_files.map
          (fun p => format_file_content p (contentAt p)) := by
  have gen : ∀ (fs : List FSFile) (st : CollectState),
      (∀ f ∈ fs, ∀ c, f.readOutcome = ReadOutcome.ok c → contentAt f.path = c) →
      st.formatted_contents =
        st.included_files.map (fun p => format_file_content p (contentAt p)) →
      (fs.foldl (process_file mb (exts.map strToLower) names) st).formatted_contents =
        (fs.foldl (process_file mb (exts.map strToLower) names) st).included_files.map
          (fun p => format_file_content p (contentAt p)) := by
    intro fs st hfs hst
    exact foldl_process_invariant mb (exts.map strToLower) names
      (fun st => st.formatted_contents =
        st.included_files.map (fun p => format_file_content p (contentAt p)))
      fs st hst
      (fun s f hf hs => by
        rcases process_file_cases mb (exts.map strToLower) names s f with
          hcase | ⟨c, hr, _, _, _, heq⟩
        · rw [hcase]; exact hs
        · rw [heq]
          simp only [List.map_append, List.map_cons, List.map_nil]
          rw [hfs f hf c hr, hs])
  have main : (get_files_from_paths fa da exts names mb).formatted_contents =
      (get_files_from_paths fa da exts names mb).included_files.map
        (fun p => format_file_content p (contentAt p)) := by
    rw [get_files_from_paths_eq_foldl]
    exact gen (allFiles fa da)
      { formatted_contents := [], included_files := [], total_bytes := 0 } h (by simp)
  exact ⟨main, by rw [main, List.length_map], gen⟩

/-- Witness for C9 at a single included file. -/
theorem C9_blocks_track_paths_witness :
    (get_files_from_paths
        [{ isfile := true,
           file := { path := "a.txt", bytes := [104], probeError := false,
                     readOutcome := ReadOutcome.ok "hello" } }] [] [] []
        none).formatted_contents =
      (get_files_from_paths
          [{ isfile := true,
             file := { path := "a.txt", bytes := [104], probeError := false,
                       readOutcome := ReadOutcome.ok "hello" } }] [] [] []
          none).included_files.map
        (fun p => format_file_content p ((fun _ => "hello") p)) :=
  (C9_blocks_track_paths _ _ [] [] none (fun _ => "hello") (by
    intro f hf c hc
    simp only [allFiles, List.filter, List.map, List.flatten, List.append_nil,
      List.mem_singleton] at hf
    subst hf
    cases hc
    rfl)).1
